import Mathlib

/-!
# Verification of the `struct` combinator library

Shallow embedding of `src/struct.ts` (heterogeneous-record combinators:
`parse`, `compactS`, `unCompact`, `traverseS`, `getAssignSemigroup`,
`insertAt`, `bind`) over an untyped JavaScript value domain, together with
theorems settling the specification's claims about these operations.
-/

/-- Untyped JavaScript runtime values, as far as the struct combinators
inspect them.  An object carries its own enumerable properties (in insertion
order) and the properties reachable through its prototype chain (flattened
into one list); the library's duck-typed checks (`isOption`) distinguish
own-property enumeration (`Object.keys`) from `in`-style lookup, which also
sees inherited properties. -/
inductive JSVal : Type where
  | vNull : JSVal
  | vUndefined : JSVal
  | vNum : Int → JSVal
  | vStr : String → JSVal
  | vBool : Bool → JSVal
  | vObj : List (String × JSVal) → List (String × JSVal) → JSVal

/-- A struct: the own enumerable properties of a plain record, as an
association list in property-insertion order. -/
abbrev Struct : Type := List (String × JSVal)

/-- First-match association-list lookup (JS objects never hold a key twice,
so this is plain property lookup on a well-formed object). -/
def jsLookup : List (String × JSVal) → String → Option JSVal
  | [], _ => none
  | p :: ps, k => if p.1 = k then some p.2 else jsLookup ps k

/-- `Object.keys`: the own enumerable property names, in order. -/
def keysOf (s : Struct) : List String := s.map Prod.fst

/-- Property read `s[k]` on a struct; missing keys read as `undefined`. -/
def jsGet (s : Struct) (k : String) : JSVal := (jsLookup s k).getD .vUndefined

/-- JS property assignment `r[k] = v` (also the semantics of a later entry in
a spread/`Object.assign`): overwrites the value in place if the key exists,
otherwise appends the property. -/
def setKey : Struct → String → JSVal → Struct
  | [], k, v => [(k, v)]
  | p :: ps, k, v => if p.1 = k then (k, v) :: ps else p :: setKey ps k v

/-- Property access `v[k]` on an arbitrary value: own properties shadow
inherited ones; anything missing (including access on primitives) reads as
`undefined`. -/
def getPropD : JSVal → String → JSVal
  | .vObj own proto, k =>
    match jsLookup own k with
    | some w => w
    | none => (jsLookup proto k).getD .vUndefined
  | _, _ => .vUndefined

/-- The JS `in` operator: key present as an own or inherited property. -/
def hasIn : JSVal → String → Bool
  | .vObj own proto, k => (jsLookup own k).isSome || (jsLookup proto k).isSome
  | _, _ => false

/-- `Object.assign(target, src)` / object-spread of `src` into `target`:
every own property of `src` is assigned into `target` left to right. -/
def objAssign2 (target : Struct) (src : Struct) : Struct :=
  src.foldl (fun acc p => setKey acc p.1 p.2) target

/-- Modelled from the spec: the Ordering Provider is "a total, consistent
order over string keys, typically default lexicographic string ordering"
(spec §6); this is the default provider, comparing code points. -/
def lexLeChars : List Char → List Char → Bool
  | [], _ => true
  | _ :: _, [] => false
  | a :: as, b :: bs =>
    if a.toNat < b.toNat then true
    else if b.toNat < a.toNat then false
    else lexLeChars as bs

/-- Modelled from the spec: lexicographic order on strings (spec §6). -/
def lexLe (a b : String) : Bool := lexLeChars a.data b.data

/-- Insert a key into an already sorted key list (stable insertion). -/
def insertSorted (le : String → String → Bool) (k : String) : List String → List String
  | [] => [k]
  | a :: as => if le k a then k :: a :: as else a :: insertSorted le k as

/-- Modelled from the spec: `R.keys(O)` — "Obtain the ordered sequence of
field names from the Ordering Provider applied to the struct's own keys"
(spec §4.1); a stable sort of the key list by the provided total order. -/
def sortKeys (le : String → String → Bool) (ks : List String) : List String :=
  ks.foldr (insertSorted le) []

/-- A per-field parser outcome: `Either<unknown, unknown>` at the JS value
level — failure-with-error or success-with-value. -/
inductive EitherV : Type where
  | left : JSVal → EitherV
  | right : JSVal → EitherV

/-- The overall outcome of `parse`: `Either<errorStruct, parsedStruct>`. -/
inductive EitherS : Type where
  | left : Struct → EitherS
  | right : Struct → EitherS

/-- The function `parse` feeds to `R.partitionMapWithIndex`
(src/struct.ts:182-191): apply the field's parser when one exists, otherwise
an automatic `right` carrying the original value. -/
def parseField (f : String → Option (JSVal → EitherV)) (k : String) (v : JSVal) : EitherV :=
  match f k with
  | some fk => fk v
  | none => .right v

/-- Modelled from the spec: `R.partitionMapWithIndex` (imported from the
repository's `ReadonlyRecord` module, which is not under src/) splits a
struct field-by-field into the `left` outcomes and the `right` outcomes,
keyed by the field names (spec §4.2: failures are "collected into a mapping
from field name to error"). -/
def partitionMapWithIndex (f : String → JSVal → EitherV) : Struct → Struct × Struct
  | [] => ([], [])
  | p :: ps =>
    let r := partitionMapWithIndex f ps
    match f p.1 p.2 with
    | .left e => ((p.1, e) :: r.1, r.2)
    | .right a => (r.1, (p.1, a) :: r.2)

/-- `parse` (src/struct.ts:176-193): partition the fields through their
parsers, then succeed exactly when the count of parsed fields equals the
count of the struct's fields. -/
def parse (f : String → Option (JSVal → EitherV)) (fa : Struct) : EitherS :=
  let pr := partitionMapWithIndex (parseField f) fa
  if (keysOf pr.2).length = (keysOf fa).length then .right pr.2 else .left pr.1

/-- Definition following the spec's words for C5: the same parser pipeline,
but with overall success decided by "the error map is empty" instead of the
source's field-count comparison (spec §4.2, §9 open question). -/
def parseEmptyCheck (f : String → Option (JSVal → EitherV)) (fa : Struct) : EitherS :=
  let pr := partitionMapWithIndex (parseField f) fa
  if pr.1.isEmpty then .right pr.2 else .left pr.1

/-- Strict-equality test `v._tag === t` (property access, so it also sees an
inherited `_tag`). -/
def isTag (a : JSVal) (t : String) : Bool :=
  match getPropD a "_tag" with
  | .vStr s => s == t
  | _ => false

/-- `isOption` (src/struct.ts:195-198): duck-typed recognition of an Option
container: a non-null object with a `_tag` property that is either `'Some'`
with a `value` property (`in`-check) and exactly two own enumerable keys, or
`'None'` (no further check). -/
def isOption (a : JSVal) : Bool :=
  match a with
  | .vObj own _ =>
    hasIn a "_tag" &&
      ((isTag a "Some" && hasIn a "value" && own.length == 2) || isTag a "None")
  | _ => false

/-- Modelled from the spec: `R.partition` (from the `ReadonlyRecord` module,
not under src/) splits a struct's fields into those failing the predicate
(`left`) and those passing it (`right`) (spec §4.3). -/
def partitionB (p : JSVal → Bool) (r : Struct) : Struct × Struct :=
  (r.filter (fun q => !p q.2), r.filter (fun q => p q.2))

/-- Modelled from the spec: `R.filterMap(identity)` over the fields that were
recognized as Option containers (from the `ReadonlyRecord` module, not under
src/): keep the fields whose value is in the `'Some'` state, replacing the
value by its `value` payload; drop the `'None'` fields entirely (spec §4.3). -/
def filterMapIdentity (r : Struct) : Struct :=
  r.filterMap (fun p => if isTag p.2 "Some" then some (p.1, getPropD p.2 "value") else none)

/-- Object-spread `{...a, ...b}` building a fresh object. -/
def spread2 (a b : Struct) : Struct := objAssign2 (objAssign2 [] a) b

/-- `compactS` (src/struct.ts:221-229): partition the fields by the
`isOption` shape test, keep the non-Option fields verbatim and
unwrap-or-drop the Option-shaped ones. -/
def compactS (r : Struct) : Struct :=
  let lr := partitionB isOption r
  spread2 lr.1 (filterMapIdentity lr.2)

/-- JS nullish test `a == null` (loose equality: `null` and `undefined`). -/
def isNullish : JSVal → Bool
  | .vNull => true
  | .vUndefined => true
  | _ => false

/-- The `None` Option container: `{ _tag: 'None' }` (own properties only). -/
def noneObj : JSVal := .vObj [("_tag", .vStr "None")] []

/-- A `Some` Option container: `{ _tag: 'Some', value: v }`. -/
def someObj (v : JSVal) : JSVal := .vObj [("_tag", .vStr "Some"), ("value", v)] []

/-- Modelled from the spec: `fromNullable` (from the `Option` module, not
under src/) — "nullish values (both null and undefined sentinels) map to
absent, everything else maps to present" (spec §3). -/
def fromNullable (v : JSVal) : JSVal := if isNullish v then noneObj else someObj v

/-- `unCompact` (src/struct.ts:248-259): wrap every own field through
`fromNullable`. -/
def unCompact (a : Struct) : Struct := a.map (fun p => (p.1, fromNullable p.2))

/-- The abstract Effect Capability consumed by `traverseS` (spec §6): `map`
and `ap`.  `ofRaw` models the unchecked cast at src/struct.ts:397: when the
first field has no handler, the raw field value itself is passed where an
effect value is expected (`fk ? fk(ta[ks[0]]) : ta[ks[0]] as any`); `ofRaw`
is each concrete capability's runtime reinterpretation of such a raw value,
chosen so that `map f (ofRaw v)` is exactly what that capability's `map`
implementation computes on the raw value `v`. -/
structure ApplyCap (F : Type → Type) : Type 1 where
  map : {α β : Type} → (α → β) → F α → F β
  ap : {α β : Type} → F α → F (α → β) → F β
  ofRaw : JSVal → F JSVal

/-- The body of `traverseS`'s accumulation loop (src/struct.ts:403-418),
factored out by name: for field `ki`, either `ap` the handler's effect into
the accumulator or `map` the original value in. -/
def traverseStep {F : Type → Type} (Fc : ApplyCap F)
    (f : String → Option (JSVal → F JSVal)) (ta : Struct)
    (fr : F Struct) (ki : String) : F Struct :=
  match f ki with
  | some fk => Fc.ap (fk (jsGet ta ki)) (Fc.map (fun r b => setKey r ki b) fr)
  | none => Fc.map (fun r => setKey r ki (jsGet ta ki)) fr

/-- `traverseS` (src/struct.ts:377-421): sort the struct's keys with the
Ordering Provider, seed the accumulator effect from the first field (its
handler's effect, or the raw value through the unchecked cast), then fold
`traverseStep` over the remaining fields in order.  The source indexes
`ks[0]` unconditionally; the empty struct is statically excluded
(`NonEmpty`), so the `[]` branch is unreachable and returns a dummy
effect. -/
def traverseS {F : Type → Type} (le : String → String → Bool) (Fc : ApplyCap F)
    (f : String → Option (JSVal → F JSVal)) (ta : Struct) : F Struct :=
  match sortKeys le (keysOf ta) with
  | [] => Fc.map (fun _ => []) (Fc.ofRaw .vUndefined)
  | k0 :: rest =>
    let seed : F Struct :=
      Fc.map (fun r => [(k0, r)])
        (match f k0 with
         | some fk => fk (jsGet ta k0)
         | none => Fc.ofRaw (jsGet ta k0))
    rest.foldl (traverseStep Fc f ta) seed

/-- Modelled from the spec: the optional effect's `map` (the `Option` module
is not under src/): absence propagates, presence is transformed (spec §6;
fp-ts: `isNone(fa) ? none : some(f(fa.value))`). -/
def optionMap {α β : Type} (f : α → β) : Option α → Option β
  | none => none
  | some a => some (f a)

/-- Modelled from the spec: the optional effect's `ap`: "success/failure, no
further computation on failure" (spec §4.1) — absence on either side makes
the combination absent. -/
def optionAp {α β : Type} (fa : Option α) (fab : Option (α → β)) : Option β :=
  match fab with
  | none => none
  | some g =>
    match fa with
    | none => none
    | some a => some (g a)

/-- What the optional effect's `map` implementation does to a raw (untyped)
value flowing through the unchecked cast at src/struct.ts:397: the
`isNone` test reads `raw._tag`; a raw value not shaped like `None` is then
unwrapped by reading `raw.value` — `undefined` for any value without such a
property. -/
def optionOfRaw (v : JSVal) : Option JSVal :=
  if isTag v "None" then none else some (getPropD v "value")

/-- The optional effect capability (`O.Apply` in the source's example). -/
def optionCap : ApplyCap Option where
  map := optionMap
  ap := optionAp
  ofRaw := optionOfRaw

/-- An instrumented effect for counting capability operations: a value
paired with the number of `map`/`ap` calls that produced it. -/
def CountEff (α : Type) : Type := α × Nat

/-- The counting capability: each `map` call adds one operation, each `ap`
call adds one operation on top of those of its two argument effects.
Handler-created effects and raw seeds carry count 0, so the final count is
exactly the number of `map`/`ap` operations `traverseS` performed. -/
def countCap : ApplyCap CountEff where
  map := fun f e => (f e.1, e.2 + 1)
  ap := fun fa fab => (fab.1 fa.1, fa.2 + fab.2 + 1)
  ofRaw := fun v => (v, 0)

/-- Pure per-field handlers lifted into the counting capability: the handler
itself performs no effect operations (count 0). -/
def countHandlers (g : String → Option (JSVal → JSVal)) :
    String → Option (JSVal → CountEff JSVal) :=
  fun k => (g k).map (fun gk => fun v => (gk v, 0))

/-- `getAssignSemigroup().concat` (src/struct.ts:445-447):
`concat: (second) => (first) => Object.assign({}, first, second)`.
`assignConcat second first` is `concat(second)(first)`. -/
def assignConcat (second : Struct) (first : Struct) : Struct :=
  objAssign2 (objAssign2 [] first) second

/-- `insertAt` (src/struct.ts:1033-1048): the runtime value is `apS` of the
`Identity` functor (from the `Identity`/`Apply` modules, not under src/);
modelled from the spec: `insertAt(field, value) -> struct -> struct'`
(spec §6), which at runtime spreads the object and assigns the field:
`{...obj, [prop]: value}`. -/
def insertAt (prop : String) (value : JSVal) (obj : Struct) : Struct :=
  setKey (objAssign2 [] obj) prop value

/-- `bind` (src/struct.ts:908-913): `({ ...obj, [key]: fn(obj) })`.  Named
`bindS` here because a bare `bind` collides with the monadic `Bind.bind`. -/
def bindS (key : String) (fn : Struct → JSVal) (obj : Struct) : Struct :=
  setKey (objAssign2 [] obj) key (fn obj)

/-- Is a per-field parser outcome a success? -/
def isRightV : EitherV → Bool
  | .right _ => true
  | .left _ => false

/-- A field parses successfully: its parser (if any) returns `right`; a field
without a parser is an automatic success (spec §4.2). -/
def fieldParseOk (f : String → Option (JSVal → EitherV)) (p : String × JSVal) : Bool :=
  match f p.1 with
  | some fk => isRightV (fk p.2)
  | none => true

/-- The error map the spec describes for `parse`: one entry per field whose
parser failed, carrying that field's error; no entry for fields that
succeeded or had no parser (spec §4.2). -/
def failedEntries (f : String → Option (JSVal → EitherV)) (fa : Struct) : Struct :=
  fa.filterMap (fun p =>
    match f p.1 with
    | some fk =>
      match fk p.2 with
      | .left e => some (p.1, e)
      | .right _ => none
    | none => none)

-- Concrete fixtures used by witnesses and counterexamples.

/-- The spec's `parse` example parsers (`a` must be `'a'`, `b` must be `1`). -/
def exPF : String → Option (JSVal → EitherV) := fun k =>
  if k = "a" then
    some (fun v => match v with | .vStr "a" => .right (.vNum 1) | _ => .left (.vStr "Not a"))
  else if k = "b" then
    some (fun v => match v with | .vNum 1 => .right (.vStr "a") | _ => .left (.vNum 42))
  else none

/-- The spec's failing `parse` example input `{ a: 'b', b: 1, c: 'abc' }`. -/
def exPA : Struct := [("a", .vStr "b"), ("b", .vNum 1), ("c", .vStr "abc")]

/-- Handler map with handlers on `a` (pass-through) and `b` (absence). -/
def exF3 : String → Option (JSVal → Option JSVal) := fun k =>
  if k = "a" then some (fun v => some v)
  else if k = "b" then some (fun _ => none)
  else none

/-- Pure handler map with handlers on both `a` and `b`. -/
def exG2 : String → Option (JSVal → JSVal) := fun k =>
  if k = "a" then some id else if k = "b" then some id else none

/-- The claim's `getAssignSemigroup` example argument `{foo: 123, bar: '456'}`. -/
def exFooBar : Struct := [("foo", .vNum 123), ("bar", .vStr "456")]

/-- The claim's `getAssignSemigroup` example argument `{bar: '123'}`. -/
def exBar : Struct := [("bar", .vStr "123")]

/-- A `None`-tagged object that carries an extra payload property. -/
def junkNone : JSVal := .vObj [("_tag", .vStr "None"), ("junk", .vNum 5)] []

/-- A `Some`-tagged object with two own keys whose `value` property is
inherited from its prototype. -/
def protoSome : JSVal := .vObj [("_tag", .vStr "Some"), ("x", .vNum 9)] [("value", .vNum 7)]

-- ------------------------------------------------------------------------
-- Lemma kit: association lists, `setKey`, `objAssign2`, key sorting
-- ------------------------------------------------------------------------

theorem keysOf_cons (p : String × JSVal) (ps : Struct) :
    keysOf (p :: ps) = p.1 :: keysOf ps := rfl

theorem keysOf_append (a b : Struct) : keysOf (a ++ b) = keysOf a ++ keysOf b := by
  simp [keysOf]

theorem jsLookup_cons (p : String × JSVal) (ps : Struct) (k : String) :
    jsLookup (p :: ps) k = if p.1 = k then some p.2 else jsLookup ps k := rfl

theorem jsLookup_eq_none_of_notMem {l : List (String × JSVal)} {k : String}
    (h : k ∉ keysOf l) : jsLookup l k = none := by
  induction l with
  | nil => rfl
  | cons p ps ih =>
    rw [keysOf_cons, List.mem_cons, not_or] at h
    rw [jsLookup_cons, if_neg (fun e => h.1 e.symm)]
    exact ih h.2

theorem jsLookup_setKey (r : Struct) (k : String) (v : JSVal) (k' : String) :
    jsLookup (setKey r k v) k' = if k = k' then some v else jsLookup r k' := by
  induction r with
  | nil => simp [setKey, jsLookup]
  | cons p ps ih =>
    obtain ⟨k1, v1⟩ := p
    by_cases hpk : k1 = k
    · subst hpk
      by_cases h : k1 = k'
      · subst h; simp [setKey, jsLookup]
      · simp [setKey, jsLookup, h]
    · by_cases h2 : k1 = k'
      · subst h2
        have h : ¬ k = k1 := fun e => hpk e.symm
        simp [setKey, jsLookup, hpk, h]
      · simp [setKey, jsLookup, hpk, h2, ih]

theorem keysOf_setKey_of_mem {r : Struct} {k : String} (v : JSVal)
    (h : k ∈ keysOf r) : keysOf (setKey r k v) = keysOf r := by
  induction r with
  | nil => simp [keysOf] at h
  | cons p ps ih =>
    obtain ⟨k1, v1⟩ := p
    by_cases hpk : k1 = k
    · subst hpk; simp [setKey, keysOf]
    · have hps : k ∈ keysOf ps := by
        rw [keysOf_cons, List.mem_cons] at h
        rcases h with h | h
        · exact absurd h.symm hpk
        · exact h
      rw [show setKey ((k1, v1) :: ps) k v = (k1, v1) :: setKey ps k v from by
            simp [setKey, hpk],
          keysOf_cons, keysOf_cons, ih hps]

theorem setKey_of_notMem {r : Struct} {k : String} (v : JSVal)
    (h : k ∉ keysOf r) : setKey r k v = r ++ [(k, v)] := by
  induction r with
  | nil => rfl
  | cons p ps ih =>
    rw [keysOf_cons, List.mem_cons, not_or] at h
    have hpk : ¬ p.1 = k := fun e => h.1 e.symm
    rw [show setKey (p :: ps) k v = p :: setKey ps k v from by simp [setKey, hpk],
      ih h.2, List.cons_append]

theorem objAssign2_cons (t : Struct) (p : String × JSVal) (ps : Struct) :
    objAssign2 t (p :: ps) = objAssign2 (setKey t p.1 p.2) ps := rfl

theorem objAssign2_eq_append :
    ∀ (l : Struct), (keysOf l).Nodup →
      ∀ acc : Struct, (∀ x ∈ keysOf l, x ∉ keysOf acc) →
        objAssign2 acc l = acc ++ l := by
  intro l
  induction l with
  | nil => intro _ acc _; simp [objAssign2]
  | cons p ps ih =>
    intro hnd acc hdisj
    rw [keysOf_cons, List.nodup_cons] at hnd
    have hpacc : p.1 ∉ keysOf acc := hdisj p.1 (by rw [keysOf_cons]; exact List.mem_cons_self _ _)
    rw [objAssign2_cons, setKey_of_notMem p.2 hpacc,
      ih hnd.2 (acc ++ [(p.1, p.2)]) ?_]
    · simp
    · intro x hx
      have hxk : x ≠ p.1 := fun e => hnd.1 (e ▸ hx)
      have hxacc : x ∉ keysOf acc := hdisj x (by rw [keysOf_cons]; exact List.mem_cons_of_mem _ hx)
      intro hmem
      rw [keysOf_append] at hmem
      rcases List.mem_append.mp hmem with hmem | hmem
      · exact hxacc hmem
      · rw [keysOf_cons] at hmem
        simp [keysOf] at hmem
        exact hxk hmem

theorem objAssign2_nil_eq {l : Struct} (hnd : (keysOf l).Nodup) :
    objAssign2 [] l = l := by
  simpa using objAssign2_eq_append l hnd [] (by simp [keysOf])

theorem jsLookup_objAssign2 :
    ∀ (s : Struct), (keysOf s).Nodup →
      ∀ (t : Struct) (k : String),
        jsLookup (objAssign2 t s) k
          = match jsLookup s k with
            | some v => some v
            | none => jsLookup t k := by
  intro s
  induction s with
  | nil => intro _ t k; rfl
  | cons p ps ih =>
    intro hnd t k
    rw [keysOf_cons, List.nodup_cons] at hnd
    rw [objAssign2_cons, ih hnd.2]
    by_cases hk : p.1 = k
    · subst hk
      have hnone : jsLookup ps p.1 = none := jsLookup_eq_none_of_notMem hnd.1
      simp [hnone, jsLookup_cons, jsLookup_setKey]
    · simp only [jsLookup_cons, if_neg hk, jsLookup_setKey]

theorem mem_insertSorted (le : String → String → Bool) (k a : String) :
    ∀ l : List String, a ∈ insertSorted le k l ↔ a = k ∨ a ∈ l := by
  intro l
  induction l with
  | nil => simp [insertSorted]
  | cons b bs ih =>
    by_cases h : le k b
    · simp only [insertSorted, if_pos h, List.mem_cons]
    · simp only [insertSorted, if_neg h, List.mem_cons, ih]
      tauto

theorem mem_sortKeys (le : String → String → Bool) (a : String) :
    ∀ l : List String, a ∈ sortKeys le l ↔ a ∈ l := by
  intro l
  induction l with
  | nil => simp [sortKeys]
  | cons b bs ih =>
    rw [show sortKeys le (b :: bs) = insertSorted le b (sortKeys le bs) from rfl,
      mem_insertSorted, ih, List.mem_cons]

theorem length_insertSorted (le : String → String → Bool) (k : String) :
    ∀ l : List String, (insertSorted le k l).length = l.length + 1 := by
  intro l
  induction l with
  | nil => rfl
  | cons b bs ih =>
    by_cases h : le k b <;> simp [insertSorted, h, ih]

theorem length_sortKeys (le : String → String → Bool) :
    ∀ l : List String, (sortKeys le l).length = l.length := by
  intro l
  induction l with
  | nil => rfl
  | cons b bs ih =>
    rw [show sortKeys le (b :: bs) = insertSorted le b (sortKeys le bs) from rfl,
      length_insertSorted, ih, List.length_cons]

-- ------------------------------------------------------------------------
-- C4: getAssignSemigroup
-- ------------------------------------------------------------------------

/-- C4 counterexample: the claim's own example refutes it.  In the source,
`concat: (second) => (first) => Object.assign({}, first, second)`, so in
`concat(x)(y)` it is `x` — the first applied argument — whose fields win.
`concat({foo:123,bar:'456'})({bar:'123'})` evaluates to
`{bar:'456', foo:123}`, not the claimed `{foo:123, bar:'123'}`:
the collision key `bar` holds `'456'`. -/
theorem assignConcat_claim_example_fails :
    assignConcat exFooBar exBar = [("bar", .vStr "456"), ("foo", .vNum 123)]
    ∧ jsLookup (assignConcat exFooBar exBar) "bar" = some (.vStr "456")
    ∧ JSVal.vStr "456" ≠ JSVal.vStr "123" :=
  ⟨rfl, rfl, by simp⟩

/-- C4 (amended): `getAssignSemigroup().concat(x)(y)` is a shallow merge in
which the fields of `x` — the first applied argument, bound to the parameter
named `second` — win on key collision; every other field keeps the value
from whichever argument carries it. -/
theorem assignConcat_firstArgWins (a b : Struct)
    (ha : (keysOf a).Nodup) (hb : (keysOf b).Nodup) (k : String) :
    jsLookup (assignConcat a b) k
      = match jsLookup a k with
        | some v => some v
        | none => jsLookup b k := by
  unfold assignConcat
  rw [jsLookup_objAssign2 a ha, objAssign2_nil_eq hb]

/-- C4 witness: the amended statement instantiated at the claim's example. -/
theorem assignConcat_firstArgWins_witness :
    jsLookup (assignConcat exFooBar exBar) "bar"
      = match jsLookup exFooBar "bar" with
        | some v => some v
        | none => jsLookup exBar "bar" :=
  assignConcat_firstArgWins exFooBar exBar (by decide) (by decide) "bar"

-- ------------------------------------------------------------------------
-- C8: insertAt / bind on an existing key
-- ------------------------------------------------------------------------

/-- C8 counterexample: applying `bind` (src/struct.ts:908) and `insertAt`
(src/struct.ts:1033) with a field name that already exists returns an
ordinary struct in which the field was silently overwritten — no
KeyConflictError-style error value exists anywhere in the computation. -/
theorem bind_insertAt_overwrite_eval :
    bindS "a" (fun _ => .vNum 2) [("a", .vNum 1)] = [("a", .vNum 2)]
    ∧ insertAt "a" (.vNum 2) [("a", .vNum 1), ("b", .vNum 7)]
        = [("a", .vNum 2), ("b", .vNum 7)] :=
  ⟨rfl, rfl⟩

/-- C8 (amended): `insertAt` and `bind` reject an existing field name only
statically (the key parameter's type collapses to `never`); at runtime a
colliding dynamic key silently overwrites the existing field in place — the
result is a plain struct with the same key set whose colliding field holds
the new value — and no error value is produced. -/
theorem insertAt_bind_overwrite (k : String) (v : JSVal) (fn : Struct → JSVal)
    (obj : Struct) (hnd : (keysOf obj).Nodup) (hk : k ∈ keysOf obj) :
    keysOf (insertAt k v obj) = keysOf obj
    ∧ jsLookup (insertAt k v obj) k = some v
    ∧ keysOf (bindS k fn obj) = keysOf obj
    ∧ jsLookup (bindS k fn obj) k = some (fn obj) := by
  unfold insertAt bindS
  rw [objAssign2_nil_eq hnd]
  refine ⟨keysOf_setKey_of_mem v hk, ?_, keysOf_setKey_of_mem (fn obj) hk, ?_⟩ <;>
    simp [jsLookup_setKey]

/-- C8 witness: the amended statement instantiated at a concrete struct with
a colliding key. -/
theorem insertAt_bind_overwrite_witness :
    keysOf (insertAt "a" (.vNum 2) [("a", .vNum 1), ("b", .vNum 7)])
        = keysOf [("a", .vNum 1), ("b", .vNum 7)]
    ∧ jsLookup (insertAt "a" (.vNum 2) [("a", .vNum 1), ("b", .vNum 7)]) "a"
        = some (.vNum 2)
    ∧ keysOf (bindS "a" (fun _ : Struct => JSVal.vNum 3) [("a", .vNum 1), ("b", .vNum 7)])
        = keysOf [("a", .vNum 1), ("b", .vNum 7)]
    ∧ jsLookup (bindS "a" (fun _ : Struct => JSVal.vNum 3) [("a", .vNum 1), ("b", .vNum 7)]) "a"
        = some ((fun _ : Struct => JSVal.vNum 3) [("a", .vNum 1), ("b", .vNum 7)]) :=
  insertAt_bind_overwrite "a" (.vNum 2) (fun _ : Struct => JSVal.vNum 3)
    [("a", .vNum 1), ("b", .vNum 7)] (by decide) (by decide)

-- ------------------------------------------------------------------------
-- C2 / C5: parse
-- ------------------------------------------------------------------------

theorem pmwi_lengths (g : String → JSVal → EitherV) :
    ∀ l : Struct,
      ((partitionMapWithIndex g l).1).length + ((partitionMapWithIndex g l).2).length
        = l.length := by
  intro l
  induction l with
  | nil => rfl
  | cons p ps ih =>
    simp only [partitionMapWithIndex]
    cases hg : g p.1 p.2 with
    | left e => simp only [List.length_cons]; omega
    | right a => simp only [List.length_cons]; omega

theorem pmwi_left_eq (f : String → Option (JSVal → EitherV)) :
    ∀ l : Struct, (partitionMapWithIndex (parseField f) l).1 = failedEntries f l := by
  intro l
  induction l with
  | nil => rfl
  | cons p ps ih =>
    simp only [partitionMapWithIndex, failedEntries, List.filterMap_cons]
    cases hf : f p.1 with
    | none =>
      simp only [parseField, hf]
      simpa [failedEntries] using ih
    | some fk =>
      cases hr : fk p.2 with
      | left e =>
        simp only [parseField, hf, hr]
        simpa [failedEntries] using ih
      | right a =>
        simp only [parseField, hf, hr]
        simpa [failedEntries] using ih

theorem pmwi_left_nil_iff (f : String → Option (JSVal → EitherV)) :
    ∀ l : Struct,
      ((partitionMapWithIndex (parseField f) l).1 = []
        ↔ ∀ p ∈ l, fieldParseOk f p = true) := by
  intro l
  induction l with
  | nil => simp [partitionMapWithIndex]
  | cons p ps ih =>
    simp only [partitionMapWithIndex]
    cases hf : f p.1 with
    | none =>
      simp only [parseField, hf, List.forall_mem_cons, fieldParseOk, ih]
      simp [hf]
    | some fk =>
      cases hr : fk p.2 with
      | left e =>
        simp only [parseField, hf, hr, List.forall_mem_cons, fieldParseOk]
        simp [hf, hr, isRightV]
      | right a =>
        simp only [parseField, hf, hr, List.forall_mem_cons, fieldParseOk, ih]
        simp [hf, hr, isRightV]

/-- C2: `parse` succeeds exactly when every field parses successfully
(fields without a parser are automatic successes); on failure it returns
precisely the error map with one entry per failed field — the error that
field's parser produced — and no entry for fields that succeeded or had no
parser.  Since every failed field of the input appears in the error map,
every supplied parser was evaluated: failures are collected, never
fail-fast. -/
theorem parse_success_iff_errors (f : String → Option (JSVal → EitherV)) (fa : Struct) :
    ((∃ s, parse f fa = .right s) ↔ ∀ p ∈ fa, fieldParseOk f p = true)
    ∧ (∀ e, parse f fa = .left e → e = failedEntries f fa) := by
  have hlen := pmwi_lengths (parseField f) fa
  have hiff := pmwi_left_nil_iff f fa
  have hleft := pmwi_left_eq f fa
  by_cases hc : ((partitionMapWithIndex (parseField f) fa).1) = []
  · have hcnt : (keysOf (partitionMapWithIndex (parseField f) fa).2).length
        = (keysOf fa).length := by
      simp only [keysOf, List.length_map]
      have h0 : ((partitionMapWithIndex (parseField f) fa).1).length = 0 := by
        rw [hc]; rfl
      omega
    have hp : parse f fa = .right (partitionMapWithIndex (parseField f) fa).2 := by
      simp only [parse]
      rw [if_pos hcnt]
    refine ⟨⟨fun _ => hiff.mp hc, fun _ => ⟨_, hp⟩⟩, fun e he => ?_⟩
    rw [hp] at he
    exact EitherS.noConfusion he
  · have hcnt : ¬ (keysOf (partitionMapWithIndex (parseField f) fa).2).length
        = (keysOf fa).length := by
      simp only [keysOf, List.length_map]
      have h0 : ((partitionMapWithIndex (parseField f) fa).1).length ≠ 0 :=
        fun h => hc (List.length_eq_zero.mp h)
      omega
    have hp : parse f fa = .left (partitionMapWithIndex (parseField f) fa).1 := by
      simp only [parse]
      rw [if_neg hcnt]
    refine ⟨⟨fun hs => ?_, fun hall => absurd (hiff.mpr hall) hc⟩, fun e he => ?_⟩
    · obtain ⟨s, hs⟩ := hs
      rw [hp] at hs
      exact EitherS.noConfusion hs
    · rw [hp] at he
      injection he with h
      rw [← h]
      exact hleft

/-- C2 witness: the error-map characterization applied at the spec's own
failing example `parse({a, b})({a:'b', b:1, c:'abc'})`, whose error map is
`{a: 'Not a'}`. -/
theorem parse_success_iff_errors_witness :
    [("a", JSVal.vStr "Not a")] = failedEntries exPF exPA :=
  (parse_success_iff_errors exPF exPA).2 [("a", JSVal.vStr "Not a")] rfl

/-- C5: on every non-empty struct, `parse`'s count-based overall-success
check (`parsed-field count = total field count`) agrees with the
empty-error-map check under all parser-map shapes: the two decision
procedures return identical results. -/
theorem parse_eq_parseEmptyCheck (f : String → Option (JSVal → EitherV))
    (fa : Struct) (h : fa ≠ []) : parse f fa = parseEmptyCheck f fa := by
  have hlen := pmwi_lengths (parseField f) fa
  by_cases hc : ((partitionMapWithIndex (parseField f) fa).1) = []
  · have hcnt : (keysOf (partitionMapWithIndex (parseField f) fa).2).length
        = (keysOf fa).length := by
      simp only [keysOf, List.length_map]
      have h0 : ((partitionMapWithIndex (parseField f) fa).1).length = 0 := by
        rw [hc]; rfl
      omega
    simp only [parse, parseEmptyCheck]
    rw [if_pos hcnt, if_pos (by simp [hc])]
  · have hcnt : ¬ (keysOf (partitionMapWithIndex (parseField f) fa).2).length
        = (keysOf fa).length := by
      simp only [keysOf, List.length_map]
      have h0 : ((partitionMapWithIndex (parseField f) fa).1).length ≠ 0 :=
        fun h => hc (List.length_eq_zero.mp h)
      omega
    simp only [parse, parseEmptyCheck]
    rw [if_neg hcnt, if_neg (by simp [hc])]

/-- C5 witness: the equivalence applied at the spec's failing example. -/
theorem parse_eq_parseEmptyCheck_witness :
    parse exPF exPA = parseEmptyCheck exPF exPA :=
  parse_eq_parseEmptyCheck exPF exPA (by simp [exPA])

-- ------------------------------------------------------------------------
-- C1 / C3 / C6: traverseS
-- ------------------------------------------------------------------------

theorem optionCap_map_none {α β : Type} (g : α → β) :
    optionCap.map g none = none := rfl

theorem optionCap_ap_noneFn {α β : Type} (fa : Option α) :
    optionCap.ap fa (none : Option (α → β)) = none := rfl

theorem optionCap_ap_noneArg {α β : Type} (fab : Option (α → β)) :
    optionCap.ap (none : Option α) fab = none := by
  cases fab <;> rfl

theorem traverseS_unfold {F : Type → Type} (Fc : ApplyCap F) (le : String → String → Bool)
    (f : String → Option (JSVal → F JSVal)) (ta : Struct) (k0 : String)
    (rest : List String) (h : sortKeys le (keysOf ta) = k0 :: rest) :
    traverseS le Fc f ta
      = rest.foldl (traverseStep Fc f ta)
          (Fc.map (fun r => [(k0, r)])
            (match f k0 with
             | some fk => fk (jsGet ta k0)
             | none => Fc.ofRaw (jsGet ta k0))) := by
  simp only [traverseS, h]

theorem optionStep_none (f : String → Option (JSVal → Option JSVal)) (ta : Struct)
    (ki : String) : traverseStep optionCap f ta none ki = none := by
  rw [traverseStep]
  cases f ki <;> rfl

theorem optionFold_none (f : String → Option (JSVal → Option JSVal)) (ta : Struct) :
    ∀ ks : List String,
      ks.foldl (traverseStep optionCap f ta) (none : Option Struct) = none := by
  intro ks
  induction ks with
  | nil => rfl
  | cons a as ih =>
    rw [List.foldl_cons, optionStep_none]
    exact ih

theorem optionFold_mem_none (f : String → Option (JSVal → Option JSVal)) (ta : Struct)
    (k : String) (fk : JSVal → Option JSVal)
    (hf : f k = some fk) (hnone : fk (jsGet ta k) = none) :
    ∀ ks : List String, k ∈ ks → ∀ fr : Option Struct,
      ks.foldl (traverseStep optionCap f ta) fr = none := by
  intro ks
  induction ks with
  | nil => intro h; cases h
  | cons a as ih =>
    intro hmem fr
    rw [List.foldl_cons]
    by_cases hak : a = k
    · subst hak
      rw [show traverseStep optionCap f ta fr a = none from by
        simp only [traverseStep, hf, hnone, optionCap_ap_noneArg]]
      exact optionFold_none f ta as
    · rcases List.mem_cons.mp hmem with he | hmem'
      · exact absurd he.symm hak
      · exact ih hmem' _

/-- C3: under the optional effect, if any field of the struct has a handler
that returns the absence value on that field's value, the whole `traverseS`
result is the absence value — whatever the ordering provider and hence
whatever that field's position in the iteration order. -/
theorem traverseS_optionAbsence (le : String → String → Bool)
    (f : String → Option (JSVal → Option JSVal)) (ta : Struct)
    (k : String) (fk : JSVal → Option JSVal)
    (hk : k ∈ keysOf ta) (hf : f k = some fk) (hnone : fk (jsGet ta k) = none) :
    traverseS le optionCap f ta = none := by
  have hks : k ∈ sortKeys le (keysOf ta) := (mem_sortKeys le k _).mpr hk
  cases hsk : sortKeys le (keysOf ta) with
  | nil => rw [hsk] at hks; cases hks
  | cons k0 rest =>
    rw [traverseS_unfold optionCap le f ta k0 rest hsk]
    rw [hsk] at hks
    rcases List.mem_cons.mp hks with hk0 | hrest
    · subst hk0
      simp only [hf, hnone, optionCap_map_none]
      exact optionFold_none f ta rest
    · exact optionFold_mem_none f ta k fk hf hnone rest hrest _

/-- C3 witness: the theorem applied at the source's own failing example
shape — `{a: 1, b: '2'}` where `b`'s handler returns absence. -/
theorem traverseS_optionAbsence_witness :
    traverseS lexLe optionCap exF3 [("a", .vNum 1), ("b", .vStr "2")] = none :=
  traverseS_optionAbsence lexLe exF3 [("a", .vNum 1), ("b", .vStr "2")]
    "b" (fun _ => none) (by simp [keysOf]) rfl rfl

/-- C1 (evidence for the code bug): the struct `{a: 1, b: 2}` under the
optional effect with a handler only on `b` (returning a successful effect)
— the first field in lexicographic order has no handler.  The claim says
the result is `some {a: 1, b: 3}` (handler-less fields keep their original
value), but the source feeds the raw value `1` to the effect's `map`
through the unchecked cast at src/struct.ts:397, and the optional `map`
unwraps `.value` of the number `1`, which is `undefined`: the program
returns `some {a: undefined, b: 3}`, losing the field's original value. -/
theorem traverseS_firstNoHandler_eval :
    jsLookup [("a", JSVal.vNum 1), ("b", JSVal.vNum 2)] "a" = some (JSVal.vNum 1)
    ∧ traverseS lexLe optionCap
        (fun k => if k = "b" then some (fun _ => some (JSVal.vNum 3)) else none)
        [("a", JSVal.vNum 1), ("b", JSVal.vNum 2)]
      = some [("a", JSVal.vUndefined), ("b", JSVal.vNum 3)]
    ∧ JSVal.vUndefined ≠ JSVal.vNum 1 :=
  ⟨rfl, rfl, by simp⟩

theorem countCap_map {α β : Type} (h : α → β) (e : CountEff α) :
    countCap.map h e = (h e.1, e.2 + 1) := rfl

theorem countCap_ap {α β : Type} (fa : CountEff α) (fab : CountEff (α → β)) :
    countCap.ap fa fab = (fab.1 fa.1, fa.2 + fab.2 + 1) := rfl

theorem countCap_ofRaw (v : JSVal) : countCap.ofRaw v = (v, 0) := rfl

theorem countStep_snd (g : String → Option (JSVal → JSVal)) (ta : Struct)
    (fr : CountEff Struct) (ki : String) :
    (traverseStep countCap (countHandlers g) ta fr ki).2
      = fr.2 + (if (g ki).isSome then 2 else 1) := by
  rw [traverseStep]
  cases hg : g ki with
  | none => simp [countHandlers, hg, countCap_map]
  | some gk => simp [countHandlers, hg, countCap_map, countCap_ap]

theorem countFold (g : String → Option (JSVal → JSVal)) (ta : Struct) :
    ∀ (ks : List String) (fr : CountEff Struct),
      (ks.foldl (traverseStep countCap (countHandlers g) ta) fr).2
        = fr.2 + ks.length + ks.countP (fun k => (g k).isSome) := by
  intro ks
  induction ks with
  | nil => intro fr; simp
  | cons a as ih =>
    intro fr
    rw [List.foldl_cons, ih, countStep_snd, List.countP_cons, List.length_cons]
    cases hg : g a <;> simp [hg] <;> omega

/-- C6 counterexample: a two-field struct with handlers on both fields.  The
claim predicts (#fields with handlers) + (#fields without) = 2 effect
operations, but the instrumented capability counts 3: the seeding `map`, and
one `map` plus one `ap` for the second field. -/
theorem traverseS_opCount_cex :
    (traverseS lexLe countCap (countHandlers exG2) [("a", .vNum 1), ("b", .vNum 2)]).2 = 3
    ∧ (traverseS lexLe countCap (countHandlers exG2) [("a", .vNum 1), ("b", .vNum 2)]).2 ≠ 2 :=
  ⟨rfl, by decide⟩

/-- C6 (amended): one accumulation pass in Ordering-Provider order, and the
number of `map`/`ap` operations performed on the Effect Capability is the
number of fields plus the number of non-first fields that have a handler:
the first field contributes its seeding `map`, each later handler-less field
one `map`, and each later field with a handler one `map` plus one `ap`. -/
theorem traverseS_opCount (le : String → String → Bool)
    (g : String → Option (JSVal → JSVal)) (ta : Struct) (h : ta ≠ []) :
    (traverseS le countCap (countHandlers g) ta).2
      = (keysOf ta).length
        + ((sortKeys le (keysOf ta)).drop 1).countP (fun k => (g k).isSome) := by
  cases hsk : sortKeys le (keysOf ta) with
  | nil =>
    exfalso
    have hl := length_sortKeys le (keysOf ta)
    rw [hsk] at hl
    simp only [List.length_nil, keysOf, List.length_map] at hl
    exact h (List.length_eq_zero.mp hl.symm)
  | cons k0 rest =>
    rw [traverseS_unfold countCap le (countHandlers g) ta k0 rest hsk, countFold]
    have hlen : (keysOf ta).length = rest.length + 1 := by
      have hl := length_sortKeys le (keysOf ta)
      rw [hsk] at hl
      simpa using hl.symm
    rw [hlen]
    simp only [List.drop_succ_cons, List.drop_zero]
    cases hg : g k0 with
    | none =>
      simp only [countHandlers, hg, Option.map_none', countCap_ofRaw, countCap_map]
      omega
    | some gk =>
      simp only [countHandlers, hg, Option.map_some', countCap_map]
      omega

/-- C6 witness: the amended count theorem applied at a concrete two-field
struct whose handler map covers both fields. -/
theorem traverseS_opCount_witness :
    (traverseS lexLe countCap (countHandlers exG2) [("a", .vNum 1), ("b", .vNum 2)]).2
      = (keysOf [("a", .vNum 1), ("b", .vNum 2)]).length
        + ((sortKeys lexLe (keysOf [("a", .vNum 1), ("b", .vNum 2)])).drop 1).countP
            (fun k => (exG2 k).isSome) :=
  traverseS_opCount lexLe exG2 [("a", .vNum 1), ("b", .vNum 2)] (by simp)

-- ------------------------------------------------------------------------
-- C7 / C10: compactS / unCompact
-- ------------------------------------------------------------------------

theorem isOption_fromNullable (v : JSVal) : isOption (fromNullable v) = true := by
  rw [fromNullable]
  cases hv : isNullish v
  · rfl
  · rfl

theorem filterMapIdentity_unCompact :
    ∀ s : Struct,
      filterMapIdentity (unCompact s) = s.filter (fun p => !isNullish p.2) := by
  intro s
  induction s with
  | nil => rfl
  | cons p ps ih =>
    rw [show unCompact (p :: ps) = (p.1, fromNullable p.2) :: unCompact ps from rfl]
    cases hv : isNullish p.2
    · have h1 : fromNullable p.2 = someObj p.2 := by simp [fromNullable, hv]
      have h2 : filterMapIdentity ((p.1, someObj p.2) :: unCompact ps)
          = (p.1, p.2) :: filterMapIdentity (unCompact ps) := rfl
      rw [h1, h2, ih, List.filter_cons]
      simp [hv]
    · have h1 : fromNullable p.2 = noneObj := by simp [fromNullable, hv]
      have h2 : filterMapIdentity ((p.1, noneObj) :: unCompact ps)
          = filterMapIdentity (unCompact ps) := rfl
      rw [h1, h2, ih, List.filter_cons]
      simp [hv]

/-- C7: for a struct whose field values are not recognized as
optional-wrapped, `compactS (unCompact s)` is `s` restricted to its
non-nullish fields: nullish fields are dropped entirely, every other field
keeps its original value. -/
theorem compactS_unCompact (s : Struct) (hnd : (keysOf s).Nodup)
    (hopt : ∀ p ∈ s, isOption p.2 = false) :
    compactS (unCompact s) = s.filter (fun p => !isNullish p.2) := by
  have hall : ∀ q ∈ unCompact s, isOption q.2 = true := by
    intro q hq
    rw [unCompact] at hq
    obtain ⟨p, hp, rfl⟩ := List.mem_map.mp hq
    exact isOption_fromNullable p.2
  have h1 : (unCompact s).filter (fun q => !isOption q.2) = [] := by
    rw [List.filter_eq_nil_iff]
    intro q hq
    simp [hall q hq]
  have h2 : (unCompact s).filter (fun q => isOption q.2) = unCompact s := by
    rw [List.filter_eq_self]
    intro q hq
    simp [hall q hq]
  have hnd2 : (keysOf (s.filter fun p => !isNullish p.2)).Nodup :=
    List.Nodup.sublist (List.Sublist.map Prod.fst (List.filter_sublist s)) hnd
  simp only [compactS, partitionB]
  rw [h1, h2, filterMapIdentity_unCompact s]
  exact objAssign2_nil_eq hnd2

/-- C7 witness: the round trip applied at the spec's `unCompact` example
struct `{foo: 123, bar: undefined, baz: 'abc'}`. -/
theorem compactS_unCompact_witness :
    compactS (unCompact [("foo", .vNum 123), ("bar", .vUndefined), ("baz", .vStr "abc")])
      = [("foo", JSVal.vNum 123), ("bar", JSVal.vUndefined), ("baz", JSVal.vStr "abc")].filter
          (fun p => !isNullish p.2) :=
  compactS_unCompact [("foo", .vNum 123), ("bar", .vUndefined), ("baz", .vStr "abc")]
    (by decide) (by decide)

theorem isTag_obj {v : JSVal} {t : String} (h : isTag v t = true) :
    ∃ own proto, v = JSVal.vObj own proto := by
  cases v <;>
    first
      | exact ⟨_, _, rfl⟩
      | simp [isTag, getPropD] at h

theorem hasIn_tag_of_isTag {v : JSVal} {t : String} (h : isTag v t = true) :
    hasIn v "_tag" = true := by
  obtain ⟨own, proto, rfl⟩ := isTag_obj h
  rw [hasIn]
  cases h1 : jsLookup own "_tag" with
  | some w => simp [h1]
  | none =>
    cases h2 : jsLookup proto "_tag" with
    | some w => simp [h1, h2]
    | none => simp [isTag, getPropD, h1, h2] at h

theorem isTag_unique {v : JSVal} (h : isTag v "None" = true) :
    isTag v "Some" = false := by
  rw [isTag] at h ⊢
  cases hg : getPropD v "_tag" with
  | vStr s =>
    rw [hg] at h
    have hs : s = "None" := by simpa using h
    subst hs
    decide
  | vNull => rw [hg] at h
  | vUndefined => rw [hg] at h
  | vNum n => rw [hg] at h
  | vBool b => rw [hg] at h
  | vObj o q => rw [hg] at h

theorem compactS_single_opt {v : JSVal} (k : String) (hb : isOption v = true) :
    compactS [(k, v)]
      = if isTag v "Some" then [(k, getPropD v "value")] else [] := by
  simp only [compactS, partitionB, List.filter_cons, List.filter_nil, hb,
    Bool.not_true, if_neg, ite_true, ite_false]
  cases ht : isTag v "Some"
  · simp [filterMapIdentity, ht, spread2, objAssign2]
  · simp [filterMapIdentity, ht, spread2, objAssign2, setKey]

theorem compactS_single_notOpt {v : JSVal} (k : String) (hb : isOption v = false) :
    compactS [(k, v)] = [(k, v)] := by
  simp [compactS, partitionB, List.filter_cons, hb, filterMapIdentity,
    spread2, objAssign2, setKey]

/-- C10: `compactS` recognizes a field value as an Option container purely
by shape.  (1) an object whose `_tag` property is `'None'` is dropped from
the result whatever other properties it carries; (2) an object whose `_tag`
is `'Some'`, that has a `value` property (own or inherited, per the `in`
operator) and exactly two own enumerable keys, is replaced by its `value`
payload (read through the prototype chain); (3) a value not recognized by
`isOption` passes through verbatim; (4) recognition holds exactly in the
two shapes just described. -/
theorem isOption_shape_compactS (k : String) (v : JSVal) :
    (isTag v "None" = true → compactS [(k, v)] = [])
    ∧ (∀ own proto, v = JSVal.vObj own proto → isTag v "Some" = true →
        hasIn v "value" = true → own.length = 2 →
        compactS [(k, v)] = [(k, getPropD v "value")])
    ∧ (isOption v = false → compactS [(k, v)] = [(k, v)])
    ∧ (isOption v = true ↔
        (isTag v "None" = true
         ∨ (isTag v "Some" = true ∧ hasIn v "value" = true
            ∧ ∃ own proto, v = JSVal.vObj own proto ∧ own.length = 2))) := by
  refine ⟨?_, ?_, ?_, ?_⟩
  · intro hN
    obtain ⟨own, proto, rfl⟩ := isTag_obj hN
    have hb : isOption (JSVal.vObj own proto) = true := by
      simp [isOption, hasIn_tag_of_isTag hN, hN]
    rw [compactS_single_opt k hb, isTag_unique hN]
    rfl
  · intro own proto hv hS hV hL
    subst hv
    have hb : isOption (JSVal.vObj own proto) = true := by
      simp [isOption, hasIn_tag_of_isTag hS, hS, hV, hL]
    rw [compactS_single_opt k hb, hS]
    rfl
  · exact compactS_single_notOpt k
  · constructor
    · intro hb
      cases v with
      | vObj own proto =>
        simp only [isOption, Bool.and_eq_true, Bool.or_eq_true] at hb
        obtain ⟨htag, hdisj⟩ := hb
        rcases hdisj with ⟨⟨hS, hV⟩, hL⟩ | hN
        · right
          exact ⟨hS, hV, own, proto, rfl, by simpa using hL⟩
        · left; exact hN
      | vNull => simp [isOption] at hb
      | vUndefined => simp [isOption] at hb
      | vNum n => simp [isOption] at hb
      | vStr t => simp [isOption] at hb
      | vBool b => simp [isOption] at hb
    · intro hdisj
      rcases hdisj with hN | ⟨hS, hV, own, proto, rfl, hL⟩
      · obtain ⟨own, proto, rfl⟩ := isTag_obj hN
        simp [isOption, hasIn_tag_of_isTag hN, hN]
      · simp [isOption, hasIn_tag_of_isTag hS, hS, hV, hL]

/-- C10 witness: clause (1) at a `None`-tagged object carrying an extra
payload property (dropped anyway), and clause (2) at a `Some`-tagged object
whose `value` property is inherited from its prototype (unwrapped to the
inherited value). -/
theorem isOption_shape_compactS_witness :
    compactS [("x", junkNone)] = []
    ∧ compactS [("y", protoSome)] = [("y", JSVal.vNum 7)] :=
  ⟨(isOption_shape_compactS "x" junkNone).1 rfl,
   (isOption_shape_compactS "y" protoSome).2.1
     [("_tag", .vStr "Some"), ("x", .vNum 9)] [("value", .vNum 7)] rfl rfl rfl rfl⟩
